import Mathlib

/-
Verification of the QuantScaleAI quantitative engine.

Shallow embedding conventions:
- Python floats are modelled as rationals (ℚ), so every identity below is exact
  arithmetic on the same formulas the source computes.
- Python dates are modelled as integers counting days; datetime.timedelta(days = n)
  is integer subtraction of n, which matches date arithmetic exactly.
- Python dicts keyed by ticker strings are modelled as association lists
  (first binding wins, as dict keys are unique) or directly as functions
  String → ℚ where the source only reads with a default.
- Fallible code (raise ValueError) is modelled with Except String.
-/

set_option maxHeartbeats 1600000

/-- Association-list lookup, modelling a Python dict read keyed by strings. -/
def alookup {α : Type} (k : String) : List (String × α) → Option α
  | [] => none
  | (a, v) :: rest => if a = k then some v else alookup k rest

/-
Embedding of analytics/tax_module.py, TaxEngine.
-/

/-- A transaction record as consumed by check_wash_sale_rule:
a dict with keys symbol, type and date. -/
structure Txn where
  symbol : String
  type : String
  date : Int
deriving DecidableEq

/-- TaxEngine.check_wash_sale_rule (tax_module.py lines 19-33):
limit_date = transaction_date - timedelta(days=30); returns True when some
transaction of this symbol with type buy has limit_date <= date <= transaction_date. -/
def check_wash_sale_rule (symbol : String) (transaction_date : Int)
    (recent_transactions : List Txn) : Bool :=
  let limit_date := transaction_date - 30
  recent_transactions.any fun txn =>
    txn.symbol == symbol && txn.type == "buy" &&
      decide (limit_date ≤ txn.date) && decide (txn.date ≤ transaction_date)

/-- Ticker metadata as used by the tax engine (core/schema.py TickerData);
the price_history field is never read by the functions under verification
and is omitted. -/
structure TickerData where
  symbol : String
  sector : String
deriving DecidableEq

/-- A square pandas correlation DataFrame: a row-label list (rows and columns
share it) and the entry function. correlation_matrix[c] is column c, whose
value at row label s is entry s c. -/
structure CorrMatrix where
  index : List String
  entry : String → String → ℚ

/-- pandas Series.idxmax over labels q :: qs with values f: the first label
attaining the maximum value (strictly later labels only win by exceeding). -/
def idxmaxAux (f : String → ℚ) (best : String) : List String → String
  | [] => best
  | x :: xs => if f best < f x then idxmaxAux f x xs else idxmaxAux f best xs

/-- The sector_peers list of find_proxy (tax_module.py line 43): symbols of the
same-sector candidates other than the loser, in candidate order. -/
def sectorPeers (loser_ticker : String) (sector : String)
    (candidate_tickers : List TickerData) : List String :=
  (candidate_tickers.filter fun t =>
    t.sector == sector && t.symbol != loser_ticker).map (·.symbol)

/-- TaxEngine.find_proxy (tax_module.py lines 35-64).
sector_peers keeps candidate order; with a usable correlation matrix the
proxy is idxmax of the loser column restricted to peers present in the
matrix index (matrix row order); otherwise the first peer; "SPY" when no peer.
The try/except around the lookup only guards pandas KeyError, which the
total model cannot raise. -/
def find_proxy (loser_ticker : String) (sector : String)
    (candidate_tickers : List TickerData)
    (correlation_matrix : Option CorrMatrix) : String :=
  match sectorPeers loser_ticker sector candidate_tickers with
  | [] => "SPY"
  | p :: ps =>
    match correlation_matrix with
    | none => p
    | some m =>
      if m.index.isEmpty then p
      else if loser_ticker ∈ m.index then
        match m.index.filter (fun s => (p :: ps).contains s) with
        | [] => p
        | q :: qs => idxmaxAux (fun s => m.entry s loser_ticker) q qs
      else p

/-- core/schema.py TaxLot. -/
structure TaxLot where
  symbol : String
  purchase_date : Int
  quantity : Int
  cost_basis_per_share : ℚ
  current_price : ℚ
deriving DecidableEq

/-- TaxLot.unrealized_pl (schema.py lines 68-70). -/
def TaxLot.unrealized_pl (lot : TaxLot) : ℚ :=
  (lot.current_price - lot.cost_basis_per_share) * lot.quantity

/-- TaxLot.loss_percentage (schema.py lines 76-79): 0 when the cost basis is 0. -/
def TaxLot.loss_percentage (lot : TaxLot) : ℚ :=
  if lot.cost_basis_per_share = 0 then 0
  else (lot.current_price - lot.cost_basis_per_share) / lot.cost_basis_per_share

/-- core/schema.py HarvestOpportunity; the reason field is a display-only
formatted string and is omitted. -/
structure HarvestOpportunity where
  sell_ticker : String
  buy_proxy_ticker : String
  quantity : Int
  estimated_loss_harvested : ℚ
deriving DecidableEq

/-- The price refresh at tax_module.py lines 76-78: update current_price
from market_prices when the symbol is present, otherwise keep the lot. -/
def refreshLot (market_prices : List (String × ℚ)) (lot : TaxLot) : TaxLot :=
  match alookup lot.symbol market_prices with
  | some px => { lot with current_price := px }
  | none => lot

/-- Sector resolution at tax_module.py lines 84-85: first candidate with the
symbol of the lot, defaulting to Unknown. -/
def sectorFor (candidate_tickers : List TickerData) (symbol : String) : String :=
  match candidate_tickers.find? (fun t => t.symbol == symbol) with
  | some t => t.sector
  | none => "Unknown"

/-- Construction of one opportunity (tax_module.py lines 89-95). -/
def mkOpportunity (candidate_tickers : List TickerData)
    (correlation_matrix : Option CorrMatrix) (lot : TaxLot) : HarvestOpportunity :=
  { sell_ticker := lot.symbol
    buy_proxy_ticker :=
      find_proxy lot.symbol (sectorFor candidate_tickers lot.symbol)
        candidate_tickers correlation_matrix
    quantity := lot.quantity
    estimated_loss_harvested := |lot.unrealized_pl| }

/-- The loop of TaxEngine.harvest_losses (tax_module.py lines 75-96), with the
in-place mutation of the lots made explicit: returns the opportunity list and
the final state of the lot list. -/
def harvest_run (market_prices : List (String × ℚ))
    (candidate_tickers : List TickerData)
    (correlation_matrix : Option CorrMatrix) :
    List TaxLot → List HarvestOpportunity × List TaxLot
  | [] => ([], [])
  | lot :: rest =>
    let lot2 := refreshLot market_prices lot
    let r := harvest_run market_prices candidate_tickers correlation_matrix rest
    ((if lot2.loss_percentage ≤ -(1/10)
        then [mkOpportunity candidate_tickers correlation_matrix lot2] else []) ++ r.1,
      lot2 :: r.2)

/-- TaxEngine.harvest_losses: the returned opportunity list. -/
def harvest_losses (portfolio_lots : List TaxLot) (market_prices : List (String × ℚ))
    (candidate_tickers : List TickerData)
    (correlation_matrix : Option CorrMatrix) : List HarvestOpportunity :=
  (harvest_run market_prices candidate_tickers correlation_matrix portfolio_lots).1

/-- Concrete lots for the C8 threshold instances. -/
def lotZeroC8 : TaxLot :=
  { symbol := "ZRO", purchase_date := 0, quantity := 10,
    cost_basis_per_share := 0, current_price := 5 }

/-- A lot at a 9 percent unrealized loss. -/
def lotNineC8 : TaxLot :=
  { symbol := "AAA", purchase_date := 0, quantity := 10,
    cost_basis_per_share := 100, current_price := 91 }

/-- A lot at an 11 percent unrealized loss. -/
def lotElevenC8 : TaxLot :=
  { symbol := "AAA", purchase_date := 0, quantity := 10,
    cost_basis_per_share := 100, current_price := 89 }

/-- Concrete candidate list for the C9 instances: two same-sector peers. -/
def candsC9 : List TickerData := [⟨"A", "S"⟩, ⟨"B", "S"⟩]

/-- A correlation matrix whose loser column ties the two peers; its row order
lists B before A. -/
def corrTieC9 : CorrMatrix := ⟨["L", "B", "A"], fun _ _ => 1/2⟩

/-- A correlation matrix preferring peer A, with B earlier in row order. -/
def corrMaxC9 : CorrMatrix :=
  ⟨["L", "B", "A"], fun s _ => if s = "A" then 1/2 else 1/4⟩

/-
Embedding of data/optimizer.py, PortfolioOptimizer.optimize_portfolio.
The CVXPY objective and solver are external: the solver output enters as a
list of weights, and the theorems below constrain it with exactly the
constraints the source imposes on the variable. benchmark_weights feeds only
the objective and the tracking error, neither of which the claims mention,
so it is not a parameter of the embedding; the result models the weights
dict of OptimizationResult.
-/

/-- Sector lookup with Unknown default (optimizer.py line 75). -/
def sectorOf (sector_map : List (String × String)) (ticker : String) : String :=
  (alookup ticker sector_map).getD "Unknown"

/-- The sector exclusion test of optimizer.py line 77: case-insensitive name
match, plus the explicit alias of Technology for Information Technology. -/
def sector_matches (excl sector : String) : Bool :=
  excl.toLower == sector.toLower ||
    (excl == "Technology" && sector == "Information Technology")

/-- A ticker is excluded when its sector matches an excluded sector or the
ticker is explicitly excluded (optimizer.py lines 67-89; the index list is
deduplicated there, so a per-position predicate is equivalent). -/
def isExcluded (sector_map : List (String × String))
    (excluded_sectors excluded_tickers : List String) (ticker : String) : Bool :=
  excluded_sectors.any (fun e => sector_matches e (sectorOf sector_map ticker)) ||
    excluded_tickers.contains ticker

/-- Number of excluded assets (optimizer.py line 89). -/
def excludedCount (tickers : List String) (sector_map : List (String × String))
    (excluded_sectors excluded_tickers : List String) : ℕ :=
  (tickers.filter (isExcluded sector_map excluded_sectors excluded_tickers)).length

/-- optimizer.py lines 97-98: count of active assets, floored at 1. -/
def n_active (tickers : List String) (sector_map : List (String × String))
    (excluded_sectors excluded_tickers : List String) : ℕ :=
  let na := tickers.length -
    excludedCount tickers sector_map excluded_sectors excluded_tickers
  if na = 0 then 1 else na

/-- optimizer.py lines 100-103: the dynamic cap max(0.20, (1/n_active) * 1.5). -/
def MAX_WEIGHT_LIMIT (na : ℕ) : ℚ := max (1/5) (1 / (na : ℚ) * (3/2))

/-- Modelled from the spec: section 4.2 prescribes an optional explicit
max_weight argument that overrides the dynamic cap. The parameter is absent
from PortfolioOptimizer.optimize_portfolio in the source (main.py passes it
anyway), so the prescribed cap rule is stated here from the words of the
spec for comparison with the cap the source computes. -/
def cap_spec (max_weight : Option ℚ) (default_cap : ℚ) (na : ℕ) : ℚ :=
  match max_weight with
  | some m => m
  | none => max default_cap (3/2 / (na : ℚ))

/-- optimizer.py line 138: zero out weights below the 1e-4 epsilon. -/
def zeroSmall (w : List ℚ) : List ℚ := w.map fun x => if x < 1/10000 then 0 else x

/-- optimizer.py lines 144-148: the weights dict keeps the strictly positive
cleaned weights keyed by ticker, in ticker order. -/
def weightDict (tickers : List String) (w : List ℚ) : List (String × ℚ) :=
  (tickers.zip (zeroSmall w)).filter fun p => decide (0 < p.2)

/-- Sum of the weights in a result dict. -/
def sumWeights (d : List (String × ℚ)) : ℚ := (d.map (·.2)).sum

/-- The shape check of optimizer.py lines 48-49. -/
def covShapeOk (cov : List (List ℚ)) (n : ℕ) : Bool :=
  cov.length == n && cov.all fun row => row.length == n

/-- PortfolioOptimizer.optimize_portfolio (optimizer.py lines 24-160): shape
check, pre-solve infeasibility check, then post-solve cleanup of the solver
output into the weights dict. -/
def optimize_portfolio (covariance_matrix : List (List ℚ)) (tickers : List String)
    (sector_map : List (String × String)) (excluded_sectors : List String)
    (excluded_tickers : List String) (solver_weights : List ℚ) :
    Except String (List (String × ℚ)) :=
  if covShapeOk covariance_matrix tickers.length then
    if excludedCount tickers sector_map excluded_sectors excluded_tickers
        = tickers.length then
      Except.error "All assets excluded! Cannot optimize."
    else
      Except.ok (weightDict tickers solver_weights)
  else
    Except.error "Covariance matrix shape does not match tickers count"

/-- Concrete 8-asset universe for the C4 instances. -/
def tickersC4 : List String := ["A1", "A2", "A3", "A4", "A5", "A6", "A7", "A8"]

/-- A feasible solver output for tickersC4 without exclusions: sums to 1,
entries in [0, 1/5], one entry below the 1e-4 cleanup epsilon. With the
identity covariance and this vector as benchmark weights it is the unique
optimum, so it is a reachable solver output. -/
def wC4 : List ℚ := [1/20000, 1/5, 1/5, 1/5, 1/5, 3999/20000, 0, 0]

/-- The 8 by 8 identity matrix as a covariance input. -/
def covC4 : List (List ℚ) :=
  (List.range 8).map fun i => (List.range 8).map fun j => if i = j then 1 else 0

/-
Embedding of analytics/risk_model.py, RiskModel.compute_covariance_matrix.
The sklearn LedoitWolf estimator it delegates to is pure rational arithmetic
(centering, empirical covariance, the Ledoit-Wolf shrinkage intensity, and
the shrunk combination) and raises no error on a nonempty finite panel, so
it is reproduced below; the panel is a rectangular list of return rows
(dates) over columns (tickers).
-/

/-- pandas DataFrame.empty for a rectangular panel: no rows or no columns. -/
def panel_empty (returns : List (List ℚ)) : Bool :=
  returns.isEmpty || (returns.head?.getD []).isEmpty

/-- Dot product of two equal-length rational vectors. -/
def dotQ (a b : List ℚ) : ℚ := (List.zipWith (· * ·) a b).sum

/-- Per-column means of the panel. -/
def colMeansQ (rows : List (List ℚ)) : List ℚ :=
  rows.transpose.map fun c => c.sum / (rows.length : ℚ)

/-- The panel with column means subtracted (sklearn assume_centered=False). -/
def centerQ (rows : List (List ℚ)) : List (List ℚ) :=
  rows.map fun r => List.zipWith (· - ·) r (colMeansQ rows)

/-- The feature Gram matrix Xt X of a panel X. -/
def gramQ (rows : List (List ℚ)) : List (List ℚ) :=
  rows.transpose.map fun ci => rows.transpose.map fun cj => dotQ ci cj

/-- Elementwise square of a matrix. -/
def sqEntries (m : List (List ℚ)) : List (List ℚ) :=
  m.map (List.map fun x => x * x)

/-- Sum of every entry of a matrix. -/
def sumAll (m : List (List ℚ)) : ℚ := (m.map (·.sum)).sum

/-- Matrix trace. -/
def traceQ (m : List (List ℚ)) : ℚ := (m.mapIdx fun i row => row.getD i 0).sum

/-- sklearn empirical_covariance: centered Gram over the sample count. -/
def empirical_covariance (rows : List (List ℚ)) : List (List ℚ) :=
  (gramQ (centerQ rows)).map (List.map fun x => x / (rows.length : ℚ))

/-- sklearn ledoit_wolf_shrinkage with assume_centered=False: the data-driven
shrinkage intensity beta / delta, 0 for a single feature or zero beta. -/
def ledoit_wolf_shrinkage (rows : List (List ℚ)) : ℚ :=
  let T := rows.length
  let N := (rows.head?.getD []).length
  if N = 1 then 0
  else
    let Xc := centerQ rows
    let X2 := sqEntries Xc
    let emp_cov_trace := X2.transpose.map fun c => c.sum / (T : ℚ)
    let mu := emp_cov_trace.sum / (N : ℚ)
    let betaRaw := sumAll (gramQ X2)
    let deltaRaw := sumAll (sqEntries (gramQ Xc)) / (T : ℚ) ^ 2
    let beta1 := 1 / ((N : ℚ) * (T : ℚ)) * (betaRaw / (T : ℚ) - deltaRaw)
    let delta1 := (deltaRaw - 2 * mu * emp_cov_trace.sum + (N : ℚ) * mu ^ 2) / (N : ℚ)
    let beta := min beta1 delta1
    if beta = 0 then 0 else beta / delta1

/-- The shrunk covariance (1 - s) * emp plus s * mu on the diagonal. -/
def shrunkCov (emp : List (List ℚ)) (s mu : ℚ) : List (List ℚ) :=
  emp.mapIdx fun i row => row.mapIdx fun j x =>
    (1 - s) * x + if i = j then s * mu else 0

/-- RiskModel.compute_covariance_matrix (risk_model.py lines 18-58): raises
the data error only for an empty panel, otherwise returns the Ledoit-Wolf
shrunk covariance of the returns. -/
def compute_covariance_matrix (returns : List (List ℚ)) :
    Except String (List (List ℚ)) :=
  if panel_empty returns then
    Except.error "Empty returns dataframe."
  else
    let emp := empirical_covariance returns
    let N := (returns.head?.getD []).length
    Except.ok (shrunkCov emp (ledoit_wolf_shrinkage returns) (traceQ emp / (N : ℚ)))

/-
Embedding of analytics/attribution.py,
AttributionEngine.generate_attribution_report.
The union of the weight dict keys enters as a ticker list (Python set
iteration order is unspecified); weights, returns and the sector map enter
as total functions, matching the dict reads with fillna(0) and
fillna("Unknown"). pandas groupby visits each distinct sector once; the
distinct sectors are the dedup of the mapped sectors, and the totals are
sums over that list, so their values do not depend on its order.
sort_values uses an unstable quicksort; the embedding sorts with a
deterministic insertion sort, and the general membership statements below
rely only on tie-independent counts.
-/

/-- The distinct sectors of the ticker universe (the groupby keys). -/
def sector_list (tickers : List String) (sector : String → String) : List String :=
  (tickers.map sector).dedup

/-- The tickers of one sector group, in universe order. -/
def inSector (tickers : List String) (sector : String → String) (s : String) :
    List String :=
  tickers.filter fun t => sector t == s

/-- Sum of weights over a group of tickers. -/
def wSum (w : String → ℚ) (ts : List String) : ℚ := (ts.map w).sum

/-- Sum of weight times return over a group of tickers. -/
def wrSum (w ret : String → ℚ) (ts : List String) : ℚ :=
  (ts.map fun t => w t * ret t).sum

/-- The weighted sector return of attribution.py lines 61-62: the weighted
return over the weight sum when the latter is positive, else 0. -/
def sectorRet (w ret : String → ℚ) (ts : List String) : ℚ :=
  if 0 < wSum w ts then wrSum w ret ts / wSum w ts else 0

/-- attribution.py line 54: benchmark-weighted total return over all tickers. -/
def total_benchmark_return (tickers : List String) (wb ret : String → ℚ) : ℚ :=
  wrSum wb ret tickers

/-- Brinson-Fachler allocation effect of one sector (attribution.py line 65). -/
def allocation_effect (tickers : List String) (wp wb ret : String → ℚ)
    (sector : String → String) (s : String) : ℚ :=
  (wSum wp (inSector tickers sector s) - wSum wb (inSector tickers sector s)) *
    (sectorRet wb ret (inSector tickers sector s) -
      total_benchmark_return tickers wb ret)

/-- Selection effect of one sector (attribution.py line 70). -/
def selection_effect (tickers : List String) (wp wb ret : String → ℚ)
    (sector : String → String) (s : String) : ℚ :=
  wSum wb (inSector tickers sector s) *
    (sectorRet wp ret (inSector tickers sector s) -
      sectorRet wb ret (inSector tickers sector s))

/-- Interaction effect of one sector (attribution.py line 73). -/
def interaction_effect (tickers : List String) (wp wb ret : String → ℚ)
    (sector : String → String) (s : String) : ℚ :=
  (wSum wp (inSector tickers sector s) - wSum wb (inSector tickers sector s)) *
    (sectorRet wp ret (inSector tickers sector s) -
      sectorRet wb ret (inSector tickers sector s))

/-- attribution.py line 85. -/
def total_allocation (tickers : List String) (wp wb ret : String → ℚ)
    (sector : String → String) : ℚ :=
  ((sector_list tickers sector).map (allocation_effect tickers wp wb ret sector)).sum

/-- attribution.py line 86. -/
def total_selection (tickers : List String) (wp wb ret : String → ℚ)
    (sector : String → String) : ℚ :=
  ((sector_list tickers sector).map (selection_effect tickers wp wb ret sector)).sum

/-- attribution.py line 87. -/
def total_interaction (tickers : List String) (wp wb ret : String → ℚ)
    (sector : String → String) : ℚ :=
  ((sector_list tickers sector).map (interaction_effect tickers wp wb ret sector)).sum

/-- The allocation_effect field of the report (attribution.py line 107). -/
def report_allocation_effect (tickers : List String) (wp wb ret : String → ℚ)
    (sector : String → String) : ℚ :=
  total_allocation tickers wp wb ret sector

/-- The selection_effect field of the report: interaction is bundled into
selection (attribution.py line 108). -/
def report_selection_effect (tickers : List String) (wp wb ret : String → ℚ)
    (sector : String → String) : ℚ :=
  total_selection tickers wp wb ret sector + total_interaction tickers wp wb ret sector

/-- The total_active_return field of the report (attribution.py line 109). -/
def report_total_active_return (tickers : List String) (wp wb ret : String → ℚ)
    (sector : String → String) : ℚ :=
  total_allocation tickers wp wb ret sector + total_selection tickers wp wb ret sector +
    total_interaction tickers wp wb ret sector

/-- Per-asset contribution to active return (attribution.py lines 92-93). -/
def contribution (wp wb ret : String → ℚ) (t : String) : ℚ := (wp t - wb t) * ret t

/-- The universe sorted by contribution, descending (attribution.py line 95). -/
def sorted_by_contribution (tickers : List String) (wp wb ret : String → ℚ) :
    List String :=
  List.insertionSort
    (fun a b => contribution wp wb ret b ≤ contribution wp wb ret a) tickers

/-- head(5) of the sorted universe (attribution.py line 96). -/
def top_contributors (tickers : List String) (wp wb ret : String → ℚ) :
    List String :=
  (sorted_by_contribution tickers wp wb ret).take 5

/-- tail(5) of the sorted universe (attribution.py line 97). -/
def top_detractors (tickers : List String) (wp wb ret : String → ℚ) :
    List String :=
  (sorted_by_contribution tickers wp wb ret).drop
    ((sorted_by_contribution tickers wp wb ret).length - 5)

/-- Concrete universe for the C5 instances. -/
def tickersC5 : List String := ["A", "B", "C"]

/-- Two sectors: C alone in S2, the rest in S1. -/
def sectorC5 : String → String := fun t => if t = "C" then "S2" else "S1"

/-- Portfolio weights summing to 1 whose S1 weights cancel to 0. -/
def wpC5 : String → ℚ := fun t =>
  if t = "A" then 1/2 else if t = "B" then -(1/2) else 1

/-- Benchmark weights: all weight on C. -/
def wbC5 : String → ℚ := fun t => if t = "C" then 1 else 0

/-- Returns: only A moved. -/
def retC5 : String → ℚ := fun t => if t = "A" then 1 else 0

/-- Universe for the C5 witness: one ticker per sector. -/
def tickersC5w : List String := ["A", "C"]

/-- Equal positive portfolio weights for the C5 witness. -/
def wpC5w : String → ℚ := fun _ => 1/2

/-- Universe of 7 tickers for the C6 counterexample. -/
def tickersC6 : List String := ["T0", "T1", "T2", "T3", "T4", "T5", "T6"]

/-- Portfolio holds only T0. -/
def wpC6 : String → ℚ := fun t => if t = "T0" then 1 else 0

/-- Benchmark weights increasing along the unheld names. -/
def wbC6 : String → ℚ := fun t =>
  if t = "T0" then 0
  else if t = "T1" then 1/10
  else if t = "T2" then 2/10
  else if t = "T3" then 3/10
  else if t = "T4" then 4/10
  else if t = "T5" then 5/10
  else 6/10

/-- All names rallied equally. -/
def retC6 : String → ℚ := fun _ => 1

/-- Universe of 10 tickers for the C6 witness. -/
def tickersC6w : List String :=
  ["T0", "T1", "T2", "T3", "T4", "T5", "T6", "T7", "T8", "T9"]

/-- Portfolio holds the first five names. -/
def wpC6w : String → ℚ := fun t =>
  if t = "T0" ∨ t = "T1" ∨ t = "T2" ∨ t = "T3" ∨ t = "T4" then 1 else 0

/-- Benchmark weight on T5 and increasingly on the last four names. -/
def wbC6w : String → ℚ := fun t =>
  if t = "T5" then 1/10
  else if t = "T6" then 2/10
  else if t = "T7" then 3/10
  else if t = "T8" then 4/10
  else if t = "T9" then 5/10
  else 0

/-- Claim C1 (counterexample): the claimed window [D-29, D] is wrong at the
lower edge: a buy dated exactly D-30 is flagged unsafe by the code although
it lies outside [D-29, D]. -/
theorem claim_C1_counterexample :
    check_wash_sale_rule "X" 100 [{ symbol := "X", type := "buy", date := 70 }] = true ∧
    ¬ ∃ t ∈ [({ symbol := "X", type := "buy", date := 70 } : Txn)],
        t.symbol = "X" ∧ t.type = "buy" ∧ (100 : Int) - 29 ≤ t.date ∧ t.date ≤ 100 := by
  constructor
  · rfl
  · decide

/-- Claim C1 (amended): the wash-sale check reports the sale unsafe exactly
when the history holds a buy of the symbol dated in the inclusive window
[D-30, D]; hence a buy on day D-29 is unsafe and one on day D-31 is safe. -/
theorem claim_C1_amended (symbol : String) (d : Int) (txns : List Txn) :
    check_wash_sale_rule symbol d txns = true ↔
      ∃ t ∈ txns, t.symbol = symbol ∧ t.type = "buy" ∧ d - 30 ≤ t.date ∧ t.date ≤ d := by
  simp [check_wash_sale_rule, List.any_eq_true, Bool.and_eq_true, beq_iff_eq,
    decide_eq_true_eq, and_assoc]

/-- Claim C10: the only mutation harvest_losses performs on an input TaxLot is
the refresh of current_price from market_prices (retained when the symbol is
absent); every other field is unchanged after the run. -/
theorem claim_C10_frame (lots : List TaxLot) (prices : List (String × ℚ))
    (cands : List TickerData) (corr : Option CorrMatrix) :
    List.Forall₂ (fun old upd =>
        upd.symbol = old.symbol ∧ upd.purchase_date = old.purchase_date ∧
        upd.quantity = old.quantity ∧
        upd.cost_basis_per_share = old.cost_basis_per_share ∧
        upd.current_price = (alookup old.symbol prices).getD old.current_price)
      lots (harvest_run prices cands corr lots).2 := by
  induction lots with
  | nil => exact List.Forall₂.nil
  | cons lot rest ih =>
    have hstep : (harvest_run prices cands corr (lot :: rest)).2 =
        refreshLot prices lot :: (harvest_run prices cands corr rest).2 := by
      simp [harvest_run]
    rw [hstep]
    refine List.Forall₂.cons ?_ ih
    cases h : alookup lot.symbol prices <;> simp [refreshLot, h]

/-- Claim C8: after the price refresh, a lot yields a harvest opportunity
exactly when its loss fraction is at most -10 percent; a zero cost basis
gives loss fraction 0 and never qualifies; a lot at -9 percent is not
proposed while one at -11 percent is. -/
theorem claim_C8_threshold :
    (∀ (lots : List TaxLot) (prices : List (String × ℚ)) (cands : List TickerData)
        (corr : Option CorrMatrix),
      harvest_losses lots prices cands corr =
        ((lots.map (refreshLot prices)).filter
            fun r => decide (r.loss_percentage ≤ -(1/10))).map (mkOpportunity cands corr)) ∧
    lotZeroC8.loss_percentage = 0 ∧
    harvest_losses [lotZeroC8] [] [] none = [] ∧
    lotNineC8.loss_percentage = -(9/100) ∧
    harvest_losses [lotNineC8] [] [] none = [] ∧
    lotElevenC8.loss_percentage = -(11/100) ∧
    (harvest_losses [lotElevenC8] [] [] none).map (·.sell_ticker) = ["AAA"] := by
  refine ⟨?_, ?_, ?_, ?_, ?_, ?_, ?_⟩
  · intro lots prices cands corr
    induction lots with
    | nil => rfl
    | cons lot rest ih =>
      simp only [harvest_losses] at ih
      simp only [harvest_losses, harvest_run, List.map_cons, List.filter_cons, ih]
      by_cases h : (refreshLot prices lot).loss_percentage ≤ -(1/10)
      · simp only [h, decide_True, if_true, ite_true, List.singleton_append, List.map_cons]
      · simp only [h, decide_False, Bool.false_eq_true, if_false, ite_false, List.nil_append]
  · norm_num [TaxLot.loss_percentage, lotZeroC8]
  · iterate 4
      try simp [harvest_losses, harvest_run, refreshLot, alookup, TaxLot.loss_percentage,
        lotZeroC8]
      try norm_num [harvest_losses, harvest_run, refreshLot, alookup, TaxLot.loss_percentage,
        lotZeroC8]
  · norm_num [TaxLot.loss_percentage, lotNineC8]
  · iterate 4
      try simp [harvest_losses, harvest_run, refreshLot, alookup, TaxLot.loss_percentage,
        lotNineC8]
      try norm_num [harvest_losses, harvest_run, refreshLot, alookup, TaxLot.loss_percentage,
        lotNineC8]
  · norm_num [TaxLot.loss_percentage, lotElevenC8]
  · iterate 4
      try simp [harvest_losses, harvest_run, refreshLot, alookup, TaxLot.loss_percentage,
        lotElevenC8, mkOpportunity]
      try norm_num [harvest_losses, harvest_run, refreshLot, alookup, TaxLot.loss_percentage,
        lotElevenC8, mkOpportunity]

/-- idxmaxAux picks one of the supplied labels. -/
theorem idxmaxAux_mem (f : String → ℚ) (q : String) (qs : List String) :
    idxmaxAux f q qs ∈ q :: qs := by
  induction qs generalizing q with
  | nil => simp [idxmaxAux]
  | cons x xs ih =>
    by_cases h : f q < f x
    · simp only [idxmaxAux, if_pos h]
      exact List.mem_cons_of_mem q (ih x)
    · simp only [idxmaxAux, if_neg h]
      rcases List.mem_cons.mp (ih q) with h1 | h1
      · rw [h1]; exact List.mem_cons_self _ _
      · exact List.mem_cons_of_mem _ (List.mem_cons_of_mem _ h1)

/-- idxmaxAux attains the maximum value among the supplied labels. -/
theorem idxmaxAux_le (f : String → ℚ) (q : String) (qs : List String) :
    ∀ u ∈ q :: qs, f u ≤ f (idxmaxAux f q qs) := by
  induction qs generalizing q with
  | nil =>
    intro u hu
    rcases List.mem_cons.mp hu with rfl | hu2
    · simp [idxmaxAux]
    · simp at hu2
  | cons x xs ih =>
    intro u hu
    by_cases h : f q < f x
    · simp only [idxmaxAux, if_pos h]
      rcases List.mem_cons.mp hu with rfl | hu2
      · exact le_trans h.le (ih x x (List.mem_cons_self _ _))
      · exact ih x u hu2
    · simp only [idxmaxAux, if_neg h]
      rcases List.mem_cons.mp hu with rfl | hu2
      · exact ih u u (List.mem_cons_self _ _)
      · rcases List.mem_cons.mp hu2 with rfl | hu3
        · exact le_trans (not_lt.mp h) (ih q q (List.mem_cons_self _ _))
        · exact ih q u (List.mem_cons_of_mem _ hu3)

/-- idxmaxAux is the first maximum: labels before it carry strictly smaller
values (the pandas idxmax tie-break). -/
theorem idxmaxAux_first (f : String → ℚ) (q : String) (qs : List String) :
    ∃ l₁ l₂, q :: qs = l₁ ++ idxmaxAux f q qs :: l₂ ∧
      ∀ u ∈ l₁, f u < f (idxmaxAux f q qs) := by
  induction qs generalizing q with
  | nil => exact ⟨[], [], by simp [idxmaxAux], by simp⟩
  | cons x xs ih =>
    by_cases h : f q < f x
    · simp only [idxmaxAux, if_pos h]
      obtain ⟨l₁, l₂, heq, hlt⟩ := ih x
      refine ⟨q :: l₁, l₂, by simp [heq], ?_⟩
      intro u hu
      rcases List.mem_cons.mp hu with rfl | hu2
      · exact lt_of_lt_of_le h (idxmaxAux_le f x xs x (List.mem_cons_self _ _))
      · exact hlt u hu2
    · simp only [idxmaxAux, if_neg h]
      obtain ⟨l₁, l₂, heq, hlt⟩ := ih q
      cases l₁ with
      | nil =>
        simp only [List.nil_append] at heq
        have hhead : idxmaxAux f q xs = q := (List.cons.injEq _ _ _ _).mp heq.symm |>.1
        refine ⟨[], x :: xs, ?_, by simp⟩
        rw [hhead]
        rfl
      | cons a l₁t =>
        have h1 : a = q := ((List.cons.injEq _ _ _ _).mp heq).1.symm
        have h2 : xs = l₁t ++ idxmaxAux f q xs :: l₂ := ((List.cons.injEq _ _ _ _).mp heq).2
        have hqlt : f q < f (idxmaxAux f q xs) := by
          have := hlt a (List.mem_cons_self _ _)
          rwa [h1] at this
        refine ⟨q :: x :: l₁t, l₂, ?_, ?_⟩
        · conv_lhs => rw [h2]
          rfl
        · intro u hu
          rcases List.mem_cons.mp hu with rfl | hu2
          · exact hqlt
          · rcases List.mem_cons.mp hu2 with rfl | hu3
            · exact lt_of_le_of_lt (not_lt.mp h) hqlt
            · exact hlt u (List.mem_cons_of_mem _ hu3)

/-- Claim C9 (amended): the proxy is restricted to same-sector candidates
excluding the lot symbol; "SPY" when none exists; the first same-sector
candidate in input order when no correlation matrix is supplied, when it
lacks the loser ticker, or when no peer appears in its index; and otherwise
the peer present in the matrix index with maximum correlation, ties broken
by the order of the matrix index rather than candidate input order. -/
theorem claim_C9_amended (loser sector : String) (cands : List TickerData)
    (corr : Option CorrMatrix) :
    (sectorPeers loser sector cands = [] →
        find_proxy loser sector cands corr = "SPY") ∧
    (∀ p ps, sectorPeers loser sector cands = p :: ps →
      (corr = none → find_proxy loser sector cands corr = p) ∧
      (∀ m, corr = some m →
        ((m.index.filter (fun s => (p :: ps).contains s) = [] ∨ loser ∉ m.index) →
            find_proxy loser sector cands corr = p) ∧
        (∀ q qs, loser ∈ m.index →
          m.index.filter (fun s => (p :: ps).contains s) = q :: qs →
          find_proxy loser sector cands corr ∈ p :: ps ∧
          find_proxy loser sector cands corr ∈ q :: qs ∧
          (∀ u ∈ q :: qs,
            m.entry u loser ≤ m.entry (find_proxy loser sector cands corr) loser) ∧
          ∃ l₁ l₂, q :: qs = l₁ ++ find_proxy loser sector cands corr :: l₂ ∧
            ∀ u ∈ l₁,
              m.entry u loser < m.entry (find_proxy loser sector cands corr) loser))) := by
  constructor
  · intro hempty
    simp only [find_proxy, hempty]
  · intro p ps hps
    refine ⟨?_, ?_⟩
    · intro hnone
      simp only [find_proxy, hps, hnone]
    · intro m hm
      have hfp : find_proxy loser sector cands corr =
          (if m.index.isEmpty then p
            else if loser ∈ m.index then
              match m.index.filter (fun s => (p :: ps).contains s) with
              | [] => p
              | q :: qs => idxmaxAux (fun s => m.entry s loser) q qs
            else p) := by
        simp only [find_proxy, hps, hm]
      refine ⟨?_, ?_⟩
      · rintro (hfil | hnot)
        · rw [hfp]
          by_cases hie : m.index.isEmpty
          · rw [if_pos hie]
          · rw [if_neg hie]
            by_cases hin : loser ∈ m.index
            · rw [if_pos hin, hfil]
            · rw [if_neg hin]
        · rw [hfp]
          by_cases hie : m.index.isEmpty
          · rw [if_pos hie]
          · rw [if_neg hie, if_neg hnot]
      · intro q qs hin hfil
        have hie : ¬ m.index.isEmpty = true := by
          cases hidx : m.index with
          | nil => rw [hidx] at hin; simp at hin
          | cons a as => simp
        have hval : find_proxy loser sector cands corr =
            idxmaxAux (fun s => m.entry s loser) q qs := by
          rw [hfp, if_neg hie, if_pos hin, hfil]
        have hmemq : find_proxy loser sector cands corr ∈ q :: qs := by
          rw [hval]; exact idxmaxAux_mem _ q qs
        have hmemp : find_proxy loser sector cands corr ∈ p :: ps := by
          have : find_proxy loser sector cands corr ∈
              m.index.filter (fun s => (p :: ps).contains s) := by
            rw [hfil]; exact hmemq
          have := List.of_mem_filter this
          simpa using this
        refine ⟨hmemp, hmemq, ?_, ?_⟩
        · intro u hu
          rw [hval]
          exact idxmaxAux_le (fun s => m.entry s loser) q qs u hu
        · rw [hval]
          exact idxmaxAux_first (fun s => m.entry s loser) q qs

/-- Claim C9 (counterexample): with peers A then B in candidate input order
and equal correlations, the code returns B (first maximum in matrix row
order), not A as the claimed input-order tie-break prescribes. -/
theorem claim_C9_counterexample :
    find_proxy "L" "S" candsC9 (some corrTieC9) = "B" ∧
    sectorPeers "L" "S" candsC9 = ["A", "B"] ∧
    corrTieC9.entry "A" "L" = corrTieC9.entry "B" "L" ∧
    ("B" : String) ≠ "A" := by
  refine ⟨?_, by simp [sectorPeers, candsC9], by simp [corrTieC9], by simp⟩
  iterate 4
    try simp [find_proxy, sectorPeers, candsC9, corrTieC9, idxmaxAux]
    try norm_num [find_proxy, sectorPeers, candsC9, corrTieC9, idxmaxAux]

/-- Claim C9 (witness): the amended theorem applied at a concrete input where
the matrix is usable; the proxy is one of the peers in the matrix index and
carries the maximum correlation. -/
theorem claim_C9_amended_witness :
    find_proxy "L" "S" candsC9 (some corrMaxC9) ∈ (["B", "A"] : List String) ∧
    ∀ u ∈ (["B", "A"] : List String),
      corrMaxC9.entry u "L" ≤
        corrMaxC9.entry (find_proxy "L" "S" candsC9 (some corrMaxC9)) "L" := by
  have h := claim_C9_amended "L" "S" candsC9 (some corrMaxC9)
  have h2 := ((h.2 "A" ["B"] (by simp [sectorPeers, candsC9])).2 corrMaxC9 rfl).2
    "B" ["A"] (by simp [corrMaxC9]) (by simp [corrMaxC9])
  exact ⟨h2.2.1, h2.2.2.1⟩

/-- With 8 active assets the dynamic cap is 0.20. -/
theorem max_weight_limit_eight : MAX_WEIGHT_LIMIT 8 = 1/5 := by
  simp only [MAX_WEIGHT_LIMIT]
  rw [max_eq_left]
  push_cast
  norm_num

/-- Claim C7: when every ticker is excluded the optimizer fails with the
infeasibility error before the solver, whatever the solver would return. -/
theorem claim_C7_infeasible (cov : List (List ℚ)) (tickers : List String)
    (sector_map : List (String × String)) (es et : List String)
    (hshape : covShapeOk cov tickers.length = true)
    (hall : ∀ t ∈ tickers, isExcluded sector_map es et t = true) :
    ∀ w, optimize_portfolio cov tickers sector_map es et w =
      Except.error "All assets excluded! Cannot optimize." := by
  intro w
  have hfix : tickers.filter (isExcluded sector_map es et) = tickers :=
    List.filter_eq_self.mpr fun t ht => hall t ht
  have hcount : excludedCount tickers sector_map es et = tickers.length := by
    rw [excludedCount, hfix]
  simp [optimize_portfolio, hshape, hcount]

/-- Claim C7 (witness): a one-asset universe whose only ticker is explicitly
excluded makes the optimizer fail with the infeasibility error. -/
theorem claim_C7_infeasible_witness :
    optimize_portfolio [[1]] ["AAA"] [("AAA", "Energy")] [] ["AAA"] [0] =
      Except.error "All assets excluded! Cannot optimize." :=
  claim_C7_infeasible [[1]] ["AAA"] [("AAA", "Energy")] [] ["AAA"]
    (by decide) (by decide) [0]

/-- Claim C2: the cap the source computes takes no max_weight argument and,
with 8 active assets, stays at the dynamic 0.20, differing from the cap the
spec prescribes for an explicit max_weight of 0.05. -/
theorem claim_C2_cap_mismatch :
    MAX_WEIGHT_LIMIT 8 = 1/5 ∧
    cap_spec (some (1/20)) (1/5) 8 = 1/20 ∧
    MAX_WEIGHT_LIMIT 8 ≠ cap_spec (some (1/20)) (1/5) 8 := by
  refine ⟨max_weight_limit_eight, rfl, ?_⟩
  rw [max_weight_limit_eight]
  norm_num [cap_spec]

/-- The cleanup never increases the total weight (entries are non-negative). -/
theorem zeroSmall_sum_le (w : List ℚ) (hpos : ∀ x ∈ w, 0 ≤ x) :
    (zeroSmall w).sum ≤ w.sum := by
  induction w with
  | nil => simp [zeroSmall]
  | cons x xs ih =>
    have hx := hpos x (List.mem_cons_self _ _)
    have ih' := ih fun y hy => hpos y (List.mem_cons_of_mem _ hy)
    simp only [zeroSmall, List.map_cons, List.sum_cons] at ih' ⊢
    by_cases hz : x < 1/10000
    · rw [if_pos hz]; linarith
    · rw [if_neg hz]; linarith

/-- The cleanup removes less than the epsilon per asset. -/
theorem zeroSmall_sum_ge (w : List ℚ) :
    w.sum - w.length * (1/10000) ≤ (zeroSmall w).sum := by
  induction w with
  | nil => simp [zeroSmall]
  | cons x xs ih =>
    simp only [zeroSmall, List.map_cons, List.sum_cons, List.length_cons] at ih ⊢
    push_cast
    by_cases hz : x < 1/10000
    · rw [if_pos hz]; linarith
    · rw [if_neg hz]; linarith

/-- Filtering out the zeros does not change the total of the cleaned weights. -/
theorem sumWeights_weightDict (tickers : List String) (w : List ℚ)
    (hlen : w.length = tickers.length) :
    sumWeights (weightDict tickers w) = (zeroSmall w).sum := by
  induction tickers generalizing w with
  | nil =>
    cases w with
    | nil => rfl
    | cons x xs => simp at hlen
  | cons t ts ih =>
    cases w with
    | nil => simp at hlen
    | cons x xs =>
      have hlen' : xs.length = ts.length := by simpa using hlen
      have ih' := ih xs hlen'
      simp only [weightDict, zeroSmall, List.map_cons, List.zip_cons_cons,
        List.filter_cons, sumWeights] at ih' ⊢
      by_cases hz : x < 1/10000
      · rw [if_pos hz]
        have h0 : ¬ (0:ℚ) < 0 := lt_irrefl 0
        simp only [decide_eq_true_eq, h0, if_false, ite_false, decide_False,
          Bool.false_eq_true]
        rw [ih']
        simp
      · rw [if_neg hz]
        have hxpos : (0:ℚ) < x := lt_of_lt_of_le (by norm_num) (not_lt.mp hz)
        simp only [decide_eq_true_eq, hxpos, if_true, ite_true, decide_True,
          List.map_cons, List.sum_cons]
        rw [ih']

/-- Every weight kept in the result dict is positive and capped. -/
theorem weightDict_val_bounds (tickers : List String) (w : List ℚ) (cap : ℚ)
    (hcap : ∀ x ∈ w, x ≤ cap) (hcap0 : 0 ≤ cap) :
    ∀ p ∈ weightDict tickers w, 0 ≤ p.2 ∧ p.2 ≤ cap := by
  intro p hp
  simp only [weightDict, List.mem_filter, decide_eq_true_eq] at hp
  obtain ⟨hzip, hppos⟩ := hp
  have hmem2 := (List.of_mem_zip hzip).2
  simp only [zeroSmall, List.mem_map] at hmem2
  obtain ⟨x, hx, hfx⟩ := hmem2
  refine ⟨le_of_lt hppos, ?_⟩
  by_cases hz : x < 1/10000
  · rw [← hfx, if_pos hz]; exact hcap0
  · rw [← hfx, if_neg hz]; exact hcap x hx

/-- Tickers the constraints zero out never appear in the result dict. -/
theorem weightDict_excluded (tickers : List String) (w : List ℚ)
    (sector_map : List (String × String)) (es et : List String)
    (hexcl : ∀ p ∈ tickers.zip w, isExcluded sector_map es et p.1 = true → p.2 = 0) :
    ∀ p ∈ weightDict tickers w, isExcluded sector_map es et p.1 = false := by
  intro p hp
  simp only [weightDict, List.mem_filter, decide_eq_true_eq] at hp
  obtain ⟨hzip, hppos⟩ := hp
  rw [show zeroSmall w = w.map (fun x => if x < 1/10000 then 0 else x) from rfl,
    List.zip_map_right] at hzip
  simp only [List.mem_map] at hzip
  obtain ⟨⟨t, x⟩, hpm, hpe⟩ := hzip
  subst hpe
  simp only [Prod.map, id] at hppos ⊢
  cases hcase : isExcluded sector_map es et t
  · rfl
  · exfalso
    have hx0 : x = 0 := hexcl (t, x) hpm hcase
    rw [hx0] at hppos
    simp at hppos

/-- Claim C4 (amended): for a solver output satisfying the imposed
constraints exactly, the returned weights are positive, capped by the
effective cap, never belong to excluded tickers, and sum to a value in
[1 - n * 1e-4, 1]; the claimed 1e-6 tolerance on the sum does not survive
the un-renormalized zeroing (see the counterexample). -/
theorem claim_C4_amended (cov : List (List ℚ)) (tickers : List String)
    (sector_map : List (String × String)) (es et : List String) (w : List ℚ)
    (hshape : covShapeOk cov tickers.length = true)
    (hne : excludedCount tickers sector_map es et ≠ tickers.length)
    (hlen : w.length = tickers.length)
    (hsum : w.sum = 1)
    (hpos : ∀ x ∈ w, 0 ≤ x)
    (hcap : ∀ x ∈ w, x ≤ MAX_WEIGHT_LIMIT (n_active tickers sector_map es et))
    (hexcl : ∀ p ∈ tickers.zip w, isExcluded sector_map es et p.1 = true → p.2 = 0) :
    optimize_portfolio cov tickers sector_map es et w =
      Except.ok (weightDict tickers w) ∧
    1 - (tickers.length : ℚ) * (1/10000) ≤ sumWeights (weightDict tickers w) ∧
    sumWeights (weightDict tickers w) ≤ 1 ∧
    (∀ p ∈ weightDict tickers w,
        0 ≤ p.2 ∧ p.2 ≤ MAX_WEIGHT_LIMIT (n_active tickers sector_map es et)) ∧
    (∀ p ∈ weightDict tickers w, isExcluded sector_map es et p.1 = false) := by
  have hsw := sumWeights_weightDict tickers w hlen
  refine ⟨?_, ?_, ?_, ?_, ?_⟩
  · simp [optimize_portfolio, hshape, hne]
  · rw [hsw, ← hlen]
    have hge := zeroSmall_sum_ge w
    rw [hsum] at hge
    exact hge
  · rw [hsw]
    have hle := zeroSmall_sum_le w hpos
    rw [hsum] at hle
    exact hle
  · refine weightDict_val_bounds tickers w _ hcap ?_
    simp only [MAX_WEIGHT_LIMIT]
    exact le_trans (by norm_num) (le_max_left _ _)
  · exact weightDict_excluded tickers w sector_map es et hexcl

/-- Claim C4 (counterexample): a feasible solver output for 8 assets with one
weight of 5e-5 loses that weight to the 1e-4 cleanup; the returned sum is
19999/20000, off from 1 by 5e-5, far beyond the claimed 1e-6 tolerance. -/
theorem claim_C4_counterexample :
    wC4.sum = 1 ∧
    (∀ x ∈ wC4, 0 ≤ x ∧ x ≤ MAX_WEIGHT_LIMIT (n_active tickersC4 [] [] [])) ∧
    optimize_portfolio covC4 tickersC4 [] [] [] wC4 =
      Except.ok (weightDict tickersC4 wC4) ∧
    sumWeights (weightDict tickersC4 wC4) = 19999/20000 ∧
    ¬ |sumWeights (weightDict tickersC4 wC4) - 1| ≤ 1/1000000 := by
  have hna : n_active tickersC4 [] [] [] = 8 := by decide
  have hsw : sumWeights (weightDict tickersC4 wC4) = 19999/20000 := by
    iterate 6
      try simp [sumWeights, weightDict, zeroSmall, tickersC4, wC4]
      try norm_num [sumWeights, weightDict, zeroSmall, tickersC4, wC4]
  have h1 : covShapeOk covC4 tickersC4.length = true := by decide
  have h2 : excludedCount tickersC4 [] [] [] ≠ tickersC4.length := by decide
  refine ⟨by norm_num [wC4], ?_, ?_, hsw, ?_⟩
  · intro x hx
    rw [hna, max_weight_limit_eight]
    simp only [wC4] at hx
    fin_cases hx <;> norm_num
  · simp [optimize_portfolio, h1, h2]
  · rw [hsw]; norm_num [abs_le]

/-- Claim C4 (witness): the amended theorem applied to the concrete 8-asset
input; the post-solve weights are accepted and their total lies in the
amended band. -/
theorem claim_C4_amended_witness :
    optimize_portfolio covC4 tickersC4 [] [] [] wC4 =
      Except.ok (weightDict tickersC4 wC4) ∧
    1 - (tickersC4.length : ℚ) * (1/10000) ≤ sumWeights (weightDict tickersC4 wC4) ∧
    sumWeights (weightDict tickersC4 wC4) ≤ 1 := by
  have h := claim_C4_amended covC4 tickersC4 [] [] [] wC4
    (by decide) (by decide) (by decide)
    (by norm_num [wC4])
    (by intro x hx; simp only [wC4] at hx; fin_cases hx <;> norm_num)
    (by
      intro x hx
      have hna : n_active tickersC4 [] [] [] = 8 := by decide
      rw [hna, max_weight_limit_eight]
      simp only [wC4] at hx
      fin_cases hx <;> norm_num)
    (by
      intro p hp hex
      simp [isExcluded] at hex)
  exact ⟨h.1, h.2.1, h.2.2.1⟩

/-- Claim C3 (counterexample): a nonempty 1 by 1 panel has fewer time
observations (1) than assets plus one (2), yet the estimator returns a
covariance matrix instead of failing with a data error. -/
theorem claim_C3_counterexample :
    (compute_covariance_matrix [[1/100]]).isOk = true ∧
    ([[(1:ℚ)/100]] : List (List ℚ)).length <
      (([[(1:ℚ)/100]] : List (List ℚ)).head?.getD []).length + 1 := by
  constructor
  · rfl
  · decide

/-- Claim C3 (amended): the covariance estimator fails with the data error
exactly when the returns panel is empty (no rows or no columns); no
minimum-observation check against assets + 1 exists in the source. -/
theorem claim_C3_amended (returns : List (List ℚ)) :
    ((compute_covariance_matrix returns).isOk = true ↔ panel_empty returns = false) ∧
    (panel_empty returns = true →
      compute_covariance_matrix returns = Except.error "Empty returns dataframe.") := by
  cases hb : panel_empty returns <;>
    simp [compute_covariance_matrix, hb, Except.isOk, Except.toBool]

/-- Claim C3 (witness): the amended theorem applied to the empty panel. -/
theorem claim_C3_amended_witness :
    compute_covariance_matrix ([] : List (List ℚ)) =
      Except.error "Empty returns dataframe." :=
  (claim_C3_amended []).2 rfl

/-- Pointwise sums over a key list add. -/
theorem sum_map_add (keys : List String) (A B : String → ℚ) :
    (keys.map fun s => A s + B s).sum = (keys.map A).sum + (keys.map B).sum := by
  induction keys with
  | nil => simp
  | cons k ks ih => simp only [List.map_cons, List.sum_cons, ih]; ring

/-- A one-hot sum over keys missing the hot key vanishes. -/
theorem sum_ite_not_mem (keys : List String) (a : String) (c : ℚ) (h : a ∉ keys) :
    (keys.map fun s => if a = s then c else 0).sum = 0 := by
  induction keys with
  | nil => simp
  | cons k ks ih =>
    have hak : a ≠ k := fun he => h (by rw [he]; exact List.mem_cons_self _ _)
    simp only [List.map_cons, List.sum_cons, if_neg hak,
      ih fun hm => h (List.mem_cons_of_mem _ hm)]
    ring

/-- A one-hot sum over nodup keys containing the hot key gives its value. -/
theorem sum_ite_mem (keys : List String) (a : String) (c : ℚ) (hnd : keys.Nodup)
    (h : a ∈ keys) :
    (keys.map fun s => if a = s then c else 0).sum = c := by
  induction keys with
  | nil => simp at h
  | cons k ks ih =>
    rcases List.mem_cons.mp h with rfl | hmem
    · simp only [List.map_cons, List.sum_cons, if_pos rfl]
      rw [sum_ite_not_mem ks a c (List.nodup_cons.mp hnd).1]
      simp
    · have hak : a ≠ k := by
        rintro rfl
        exact (List.nodup_cons.mp hnd).1 hmem
      simp only [List.map_cons, List.sum_cons, if_neg hak]
      rw [ih (List.nodup_cons.mp hnd).2 hmem]
      ring

/-- Summing group sums over nodup covering keys recovers the universe sum. -/
theorem sum_filter_partition (keys : List String) (l : List String)
    (f : String → String) (g : String → ℚ) (hnd : keys.Nodup)
    (hcov : ∀ t ∈ l, f t ∈ keys) :
    (keys.map fun s => ((l.filter fun t => f t == s).map g).sum).sum =
      (l.map g).sum := by
  induction l with
  | nil => simp
  | cons t l ih =>
    have hft := hcov t (List.mem_cons_self _ _)
    have ih' := ih fun u hu => hcov u (List.mem_cons_of_mem _ hu)
    have hstep : ∀ s : String,
        (((t :: l).filter fun u => f u == s).map g).sum =
          (if f t = s then g t else 0) +
            ((l.filter fun u => f u == s).map g).sum := by
      intro s
      by_cases hs : f t = s
      · simp [List.filter_cons, hs]
      · simp [List.filter_cons, hs]
    calc (keys.map fun s => (((t :: l).filter fun u => f u == s).map g).sum).sum
        = (keys.map fun s => (if f t = s then g t else 0) +
            ((l.filter fun u => f u == s).map g).sum).sum := by
          simp only [hstep]
      _ = (keys.map fun s => if f t = s then g t else 0).sum +
            (keys.map fun s => ((l.filter fun u => f u == s).map g).sum).sum :=
          sum_map_add keys _ _
      _ = g t + (l.map g).sum := by rw [sum_ite_mem keys (f t) (g t) hnd hft, ih']
      _ = ((t :: l).map g).sum := by simp

/-- The weight sum times the guarded sector return recovers the weighted
return sum, when the group weight is positive or identically zero. -/
theorem sector_wr (w ret : String → ℚ) (ts : List String)
    (hw : 0 < wSum w ts ∨ ∀ t ∈ ts, w t = 0) :
    wSum w ts * sectorRet w ret ts = wrSum w ret ts := by
  rcases hw with hpos | hzero
  · rw [sectorRet, if_pos hpos, mul_comm, div_mul_cancel₀ _ (ne_of_gt hpos)]
  · have hws : wSum w ts = 0 := by
      rw [wSum, List.sum_eq_zero]
      intro x hx
      obtain ⟨t, ht, rfl⟩ := List.mem_map.mp hx
      exact hzero t ht
    have hwr : wrSum w ret ts = 0 := by
      rw [wrSum, List.sum_eq_zero]
      intro x hx
      obtain ⟨t, ht, rfl⟩ := List.mem_map.mp hx
      rw [hzero t ht]
      ring
    rw [hws, hwr, zero_mul]

/-- Pointwise differences over a key list subtract. -/
theorem sum_map_sub (keys : List String) (A B : String → ℚ) :
    (keys.map fun s => A s - B s).sum = (keys.map A).sum - (keys.map B).sum := by
  induction keys with
  | nil => simp
  | cons k ks ih => simp only [List.map_cons, List.sum_cons, ih]; ring

/-- A constant right factor leaves the sum. -/
theorem sum_map_mul_right (keys : List String) (A : String → ℚ) (c : ℚ) :
    (keys.map fun s => A s * c).sum = (keys.map A).sum * c := by
  induction keys with
  | nil => simp
  | cons k ks ih => simp only [List.map_cons, List.sum_cons, ih]; ring

/-- Sums respect pointwise equality on the key list. -/
theorem sum_map_congr (keys : List String) (A B : String → ℚ)
    (h : ∀ s ∈ keys, A s = B s) : (keys.map A).sum = (keys.map B).sum := by
  induction keys with
  | nil => simp
  | cons k ks ih =>
    simp only [List.map_cons, List.sum_cons,
      h k (List.mem_cons_self _ _), ih fun s hs => h s (List.mem_cons_of_mem _ hs)]

/-- Claim C5 (amended): when both weight vectors sum to 1 and, on each sector,
each weight vector has a strictly positive sum or vanishes identically (the
claimed nonnegativity of sector sums is not enough: see the counterexample),
total allocation plus bundled selection equals the weighted return spread,
and the reported total active return is their sum. -/
theorem claim_C5_amended (tickers : List String) (wp wb ret : String → ℚ)
    (sector : String → String)
    (hp1 : wSum wp tickers = 1) (hb1 : wSum wb tickers = 1)
    (hps : ∀ s ∈ sector_list tickers sector,
      0 < wSum wp (inSector tickers sector s) ∨
        ∀ t ∈ inSector tickers sector s, wp t = 0)
    (hbs : ∀ s ∈ sector_list tickers sector,
      0 < wSum wb (inSector tickers sector s) ∨
        ∀ t ∈ inSector tickers sector s, wb t = 0) :
    report_allocation_effect tickers wp wb ret sector +
        report_selection_effect tickers wp wb ret sector =
      wrSum wp ret tickers - wrSum wb ret tickers ∧
    report_total_active_return tickers wp wb ret sector =
      report_allocation_effect tickers wp wb ret sector +
        report_selection_effect tickers wp wb ret sector := by
  have hnd : (sector_list tickers sector).Nodup := List.nodup_dedup _
  have hcov : ∀ t ∈ tickers, sector t ∈ sector_list tickers sector :=
    fun t ht => List.mem_dedup.mpr (List.mem_map_of_mem sector ht)
  have hP : ∀ g : String → ℚ,
      ((sector_list tickers sector).map fun s =>
        ((inSector tickers sector s).map g).sum).sum = (tickers.map g).sum := by
    intro g
    simpa only [inSector] using
      sum_filter_partition (sector_list tickers sector) tickers sector g hnd hcov
  have hkey : ∀ s ∈ sector_list tickers sector,
      allocation_effect tickers wp wb ret sector s +
        (selection_effect tickers wp wb ret sector s +
          interaction_effect tickers wp wb ret sector s) =
      wrSum wp ret (inSector tickers sector s) -
        wrSum wb ret (inSector tickers sector s) -
        (wSum wp (inSector tickers sector s) -
          wSum wb (inSector tickers sector s)) *
          total_benchmark_return tickers wb ret := by
    intro s hs
    have h1 := sector_wr wp ret (inSector tickers sector s) (hps s hs)
    have h2 := sector_wr wb ret (inSector tickers sector s) (hbs s hs)
    simp only [allocation_effect, selection_effect, interaction_effect]
    linear_combination h1 - h2
  have e1 : ((sector_list tickers sector).map fun s =>
      wrSum wp ret (inSector tickers sector s)).sum = wrSum wp ret tickers := by
    simpa only [wrSum] using hP fun t => wp t * ret t
  have e2 : ((sector_list tickers sector).map fun s =>
      wrSum wb ret (inSector tickers sector s)).sum = wrSum wb ret tickers := by
    simpa only [wrSum] using hP fun t => wb t * ret t
  have e3 : ((sector_list tickers sector).map fun s =>
      wSum wp (inSector tickers sector s)).sum = wSum wp tickers := by
    simpa only [wSum] using hP wp
  have e4 : ((sector_list tickers sector).map fun s =>
      wSum wb (inSector tickers sector s)).sum = wSum wb tickers := by
    simpa only [wSum] using hP wb
  constructor
  · simp only [report_allocation_effect, report_selection_effect,
      total_allocation, total_selection, total_interaction]
    calc ((sector_list tickers sector).map
            (allocation_effect tickers wp wb ret sector)).sum +
          (((sector_list tickers sector).map
            (selection_effect tickers wp wb ret sector)).sum +
           ((sector_list tickers sector).map
            (interaction_effect tickers wp wb ret sector)).sum)
        = ((sector_list tickers sector).map fun s =>
            allocation_effect tickers wp wb ret sector s +
              (selection_effect tickers wp wb ret sector s +
                interaction_effect tickers wp wb ret sector s)).sum := by
          rw [sum_map_add, sum_map_add]
      _ = ((sector_list tickers sector).map fun s =>
            wrSum wp ret (inSector tickers sector s) -
              wrSum wb ret (inSector tickers sector s) -
              (wSum wp (inSector tickers sector s) -
                wSum wb (inSector tickers sector s)) *
                total_benchmark_return tickers wb ret).sum :=
          sum_map_congr _ _ _ hkey
      _ = (((sector_list tickers sector).map fun s =>
            wrSum wp ret (inSector tickers sector s) -
              wrSum wb ret (inSector tickers sector s)).sum) -
          (((sector_list tickers sector).map fun s =>
            (wSum wp (inSector tickers sector s) -
              wSum wb (inSector tickers sector s)) *
              total_benchmark_return tickers wb ret).sum) := by
          rw [sum_map_sub]
      _ = (wrSum wp ret tickers - wrSum wb ret tickers) -
          (wSum wp tickers - wSum wb tickers) *
            total_benchmark_return tickers wb ret := by
          rw [sum_map_sub, e1, e2, sum_map_mul_right, sum_map_sub, e3, e4]
      _ = wrSum wp ret tickers - wrSum wb ret tickers := by
          rw [hp1, hb1]
          ring
  · simp only [report_total_active_return, report_allocation_effect,
      report_selection_effect]
    ring

/-- Claim C5 (counterexample): both weight vectors sum to 1 and every
per-sector weight sum is non-negative (S1 sums to 0 with canceling signed
weights), yet allocation plus bundled selection is 0 while the weighted
return spread is 1/2: the claimed hypotheses do not imply additivity. -/
theorem claim_C5_counterexample :
    wSum wpC5 tickersC5 = 1 ∧
    wSum wbC5 tickersC5 = 1 ∧
    sector_list tickersC5 sectorC5 = ["S1", "S2"] ∧
    wSum wpC5 (inSector tickersC5 sectorC5 "S1") = 0 ∧
    wSum wpC5 (inSector tickersC5 sectorC5 "S2") = 1 ∧
    wSum wbC5 (inSector tickersC5 sectorC5 "S1") = 0 ∧
    wSum wbC5 (inSector tickersC5 sectorC5 "S2") = 1 ∧
    report_allocation_effect tickersC5 wpC5 wbC5 retC5 sectorC5 +
        report_selection_effect tickersC5 wpC5 wbC5 retC5 sectorC5 = 0 ∧
    wrSum wpC5 retC5 tickersC5 - wrSum wbC5 retC5 tickersC5 = 1/2 ∧
    (0 : ℚ) ≠ 1/2 := by
  have hsl : sector_list tickersC5 sectorC5 = ["S1", "S2"] := by decide
  have hi1 : inSector tickersC5 sectorC5 "S1" = ["A", "B"] := by decide
  have hi2 : inSector tickersC5 sectorC5 "S2" = ["C"] := by decide
  refine ⟨?_, ?_, hsl, ?_, ?_, ?_, ?_, ?_, ?_, by norm_num⟩
  · iterate 3
      try simp [wSum, wpC5, tickersC5]
      try norm_num [wSum, wpC5, tickersC5]
  · iterate 3
      try simp [wSum, wbC5, tickersC5]
      try norm_num [wSum, wbC5, tickersC5]
  · rw [hi1]
    iterate 3
      try simp [wSum, wpC5]
      try norm_num [wSum, wpC5]
  · rw [hi2]
    iterate 3
      try simp [wSum, wpC5]
      try norm_num [wSum, wpC5]
  · rw [hi1]
    iterate 3
      try simp [wSum, wbC5]
      try norm_num [wSum, wbC5]
  · rw [hi2]
    iterate 3
      try simp [wSum, wbC5]
      try norm_num [wSum, wbC5]
  · have htb : total_benchmark_return tickersC5 wbC5 retC5 = 0 := by
      iterate 3
        try simp [total_benchmark_return, wrSum, tickersC5, wbC5, retC5]
        try norm_num [total_benchmark_return, wrSum, tickersC5, wbC5, retC5]
    iterate 8
      try simp [report_allocation_effect, report_selection_effect,
        total_allocation, total_selection, total_interaction, allocation_effect,
        selection_effect, interaction_effect, sectorRet, htb,
        wSum, wrSum, hsl, hi1, hi2, wpC5, wbC5, retC5]
      try norm_num [report_allocation_effect, report_selection_effect,
        total_allocation, total_selection, total_interaction, allocation_effect,
        selection_effect, interaction_effect, sectorRet, htb,
        wSum, wrSum, hsl, hi1, hi2, wpC5, wbC5, retC5]
  · iterate 3
      try simp [wrSum, wpC5, wbC5, retC5, tickersC5]
      try norm_num [wrSum, wpC5, wbC5, retC5, tickersC5]

/-- Claim C5 (witness): the amended theorem applied to a two-sector universe
whose sector sums are positive or identically zero. -/
theorem claim_C5_amended_witness :
    report_allocation_effect tickersC5w wpC5w wbC5 retC5 sectorC5 +
        report_selection_effect tickersC5w wpC5w wbC5 retC5 sectorC5 =
      wrSum wpC5w retC5 tickersC5w - wrSum wbC5 retC5 tickersC5w ∧
    report_total_active_return tickersC5w wpC5w wbC5 retC5 sectorC5 =
      report_allocation_effect tickersC5w wpC5w wbC5 retC5 sectorC5 +
        report_selection_effect tickersC5w wpC5w wbC5 retC5 sectorC5 := by
  have hsl : sector_list tickersC5w sectorC5 = ["S1", "S2"] := by decide
  have hiw1 : inSector tickersC5w sectorC5 "S1" = ["A"] := by decide
  have hiw2 : inSector tickersC5w sectorC5 "S2" = ["C"] := by decide
  refine claim_C5_amended tickersC5w wpC5w wbC5 retC5 sectorC5 ?_ ?_ ?_ ?_
  · norm_num [wSum, wpC5w, tickersC5w]
  · iterate 3
      try simp [wSum, wbC5, tickersC5w]
      try norm_num [wSum, wbC5, tickersC5w]
  · intro s hs
    rw [hsl] at hs
    rcases List.mem_cons.mp hs with rfl | hs2
    · left
      rw [hiw1]
      norm_num [wSum, wpC5w]
    · rcases List.mem_cons.mp hs2 with rfl | hs3
      · left
        rw [hiw2]
        norm_num [wSum, wpC5w]
      · simp at hs3
  · intro s hs
    rw [hsl] at hs
    rcases List.mem_cons.mp hs with rfl | hs2
    · right
      rw [hiw1]
      intro t ht
      rcases List.mem_cons.mp ht with rfl | ht2
      · simp [wbC5]
      · simp at ht2
    · rcases List.mem_cons.mp hs2 with rfl | hs3
      · left
        rw [hiw2]
        iterate 3
          try simp [wSum, wbC5]
          try norm_num [wSum, wbC5]
      · simp at hs3

/-- Claim C6 (amended): a ticker with zero portfolio weight, positive
benchmark weight and positive return has negative contribution; it appears
in the detractor list whenever at most 4 other tickers have contribution at
most its own, and it is absent from the contributor list whenever at least 5
tickers have strictly greater contribution. Membership is otherwise not
guaranteed, because both lists are the 5-element head and tail of one
descending sort: see the counterexample. -/
theorem claim_C6_amended (tickers : List String) (wp wb ret : String → ℚ)
    (t : String) (hnd : tickers.Nodup) (ht : t ∈ tickers) (hwp : wp t = 0)
    (hwb : 0 < wb t) (hret : 0 < ret t) :
    contribution wp wb ret t < 0 ∧
    ((tickers.countP fun u =>
        decide (contribution wp wb ret u ≤ contribution wp wb ret t) &&
          decide (u ≠ t)) ≤ 4 →
      t ∈ top_detractors tickers wp wb ret) ∧
    (5 ≤ (tickers.countP fun u =>
        decide (contribution wp wb ret t < contribution wp wb ret u)) →
      t ∉ top_contributors tickers wp wb ret) := by
  have hcneg : contribution wp wb ret t < 0 := by
    rw [contribution, hwp]
    calc (0 - wb t) * ret t = -(wb t * ret t) := by ring
      _ < 0 := neg_neg_iff_pos.mpr (mul_pos hwb hret)
  haveI hTot : IsTotal String fun a b =>
      contribution wp wb ret b ≤ contribution wp wb ret a := ⟨fun _ _ => le_total _ _⟩
  haveI hTrans : IsTrans String fun a b =>
      contribution wp wb ret b ≤ contribution wp wb ret a :=
    ⟨fun _ _ _ hab hbc => le_trans hbc hab⟩
  have hperm : (sorted_by_contribution tickers wp wb ret).Perm tickers :=
    List.perm_insertionSort _ _
  have hsortedL : (sorted_by_contribution tickers wp wb ret).Sorted
      (fun a b => contribution wp wb ret b ≤ contribution wp wb ret a) :=
    List.sorted_insertionSort _ tickers
  have hndL : (sorted_by_contribution tickers wp wb ret).Nodup :=
    hperm.nodup_iff.mpr hnd
  have htL : t ∈ sorted_by_contribution tickers wp wb ret := hperm.mem_iff.mpr ht
  obtain ⟨l₁, l₂, hsplit⟩ := List.append_of_mem htL
  have hpwfull := hsplit ▸ hsortedL
  have hndfull := hsplit ▸ hndL
  have hl₂le : ∀ b ∈ l₂, contribution wp wb ret b ≤ contribution wp wb ret t :=
    (List.pairwise_cons.mp (List.pairwise_append.mp hpwfull).2.1).1
  have htl₁ : t ∉ l₁ := fun hmem =>
    List.disjoint_of_nodup_append hndfull hmem (List.mem_cons_self _ _)
  have htl₂ : t ∉ l₂ :=
    (List.nodup_cons.mp (List.Nodup.of_append_right hndfull)).1
  have hlen : (sorted_by_contribution tickers wp wb ret).length =
      l₁.length + (l₂.length + 1) := by
    rw [hsplit]
    simp [List.length_append]
  refine ⟨hcneg, ?_, ?_⟩
  · intro hcount
    have hall : ∀ b ∈ l₂,
        (fun u => decide (contribution wp wb ret u ≤ contribution wp wb ret t) &&
          decide (u ≠ t)) b = true := by
      intro b hb
      have hbt : b ≠ t := fun he => htl₂ (he ▸ hb)
      simp [hl₂le b hb, hbt]
    have hcl₂ : l₂.countP (fun u =>
        decide (contribution wp wb ret u ≤ contribution wp wb ret t) &&
          decide (u ≠ t)) = l₂.length := List.countP_eq_length.mpr hall
    have hcL := hperm.countP_eq (fun u =>
      decide (contribution wp wb ret u ≤ contribution wp wb ret t) &&
        decide (u ≠ t))
    have hbound : l₂.length ≤ tickers.countP (fun u =>
        decide (contribution wp wb ret u ≤ contribution wp wb ret t) &&
          decide (u ≠ t)) := by
      rw [← hcL, hsplit, List.countP_append, List.countP_cons, ← hcl₂]
      omega
    have hl₂4 : l₂.length ≤ 4 := le_trans hbound hcount
    have hk : (sorted_by_contribution tickers wp wb ret).length - 5 ≤ l₁.length := by
      omega
    rw [top_detractors, hsplit] at *
    rw [List.drop_append_of_le_length (by rw [← hsplit]; exact hk)]
    exact List.mem_append_right _ (List.mem_cons_self _ _)
  · intro hcnt hmem
    have hq0 : ∀ b ∈ t :: l₂,
        ¬ (fun u => decide (contribution wp wb ret t < contribution wp wb ret u)) b
          = true := by
      intro b hb
      rcases List.mem_cons.mp hb with rfl | hb2
      · simp
      · simp only [decide_eq_true_eq]
        exact not_lt.mpr (hl₂le b hb2)
    have hzero : (t :: l₂).countP
        (fun u => decide (contribution wp wb ret t < contribution wp wb ret u)) = 0 :=
      List.countP_eq_zero.mpr hq0
    have hcL := hperm.countP_eq
      (fun u => decide (contribution wp wb ret t < contribution wp wb ret u))
    have hcnt₁ : 5 ≤ l₁.countP
        (fun u => decide (contribution wp wb ret t < contribution wp wb ret u)) := by
      rw [← hcL, hsplit, List.countP_append, hzero] at hcnt
      omega
    have h5 : 5 ≤ l₁.length := le_trans hcnt₁ (List.countP_le_length _)
    rw [top_contributors, hsplit, List.take_append_of_le_length h5] at hmem
    exact htl₁ (List.take_subset _ _ hmem)

/-- Claim C6 (counterexample): in a 7-ticker universe, the unheld rallying
ticker T1 has negative contribution yet lands in the 5-element head
(contributor list) and misses the 5-element tail (detractor list), because
five worse names push it out: the claimed memberships fail. -/
theorem claim_C6_counterexample :
    wpC6 "T1" = 0 ∧ 0 < wbC6 "T1" ∧ 0 < retC6 "T1" ∧
    contribution wpC6 wbC6 retC6 "T1" = -(1/10) ∧
    "T1" ∈ top_contributors tickersC6 wpC6 wbC6 retC6 ∧
    "T1" ∉ top_detractors tickersC6 wpC6 wbC6 retC6 := by
  have hsort : sorted_by_contribution tickersC6 wpC6 wbC6 retC6 =
      ["T0", "T1", "T2", "T3", "T4", "T5", "T6"] := by
    iterate 16
      try simp [sorted_by_contribution, List.insertionSort, List.orderedInsert,
        contribution, wpC6, wbC6, retC6, tickersC6]
      try norm_num [sorted_by_contribution, List.insertionSort, List.orderedInsert,
        contribution, wpC6, wbC6, retC6, tickersC6]
  refine ⟨by simp [wpC6], ?_, ?_, ?_, ?_, ?_⟩
  · iterate 3
      try simp [wbC6]
      try norm_num
  · norm_num [retC6]
  · iterate 3
      try simp [contribution, wpC6, wbC6, retC6]
      try norm_num
  · rw [top_contributors, hsort]
    decide
  · rw [top_detractors, hsort]
    decide

/-- Claim C6 (witness): the amended theorem at a 10-ticker universe where the
unheld rallying ticker T5 has exactly 5 better and 4 worse names, so it is a
listed detractor and no contributor. -/
theorem claim_C6_amended_witness :
    contribution wpC6w wbC6w retC6 "T5" < 0 ∧
    "T5" ∈ top_detractors tickersC6w wpC6w wbC6w retC6 ∧
    "T5" ∉ top_contributors tickersC6w wpC6w wbC6w retC6 := by
  have h := claim_C6_amended tickersC6w wpC6w wbC6w retC6 "T5"
    (by decide) (by decide)
    (by simp [wpC6w])
    (by
      iterate 3
        try simp [wbC6w]
        try norm_num)
    (by norm_num [retC6])
  refine ⟨h.1, h.2.1 ?_, h.2.2 ?_⟩
  · iterate 8
      try simp [List.countP_cons, List.countP_nil, contribution, wpC6w, wbC6w,
        retC6, tickersC6w]
      try norm_num [List.countP_cons, List.countP_nil, contribution, wpC6w, wbC6w,
        retC6, tickersC6w]
  · iterate 8
      try simp [List.countP_cons, List.countP_nil, contribution, wpC6w, wbC6w,
        retC6, tickersC6w]
      try norm_num [List.countP_cons, List.countP_nil, contribution, wpC6w, wbC6w,
        retC6, tickersC6w]
